import Mathlib

/-!
Verification development for the m3u8 downloader (src/main.rs).

The program is embedded shallowly:
* manifest text and URLs are `List Char` (`Str`);
* byte buffers are `List Nat`;
* the HTTP transport is an oracle `fetch : Str → Option (List Nat)`
  (`none` models a network failure);
* the AES-128 block operation lives in the external `crypto` crate and is a
  parameter (`E`/`D : List Nat → List Nat → List Nat`, key then block);
* Rust panics (`unwrap` on `Err`/`None`) and propagated `Err` values are both
  modelled as `Except`/abort values, tagged by their cause in `RunError`.
-/

namespace M3u8

/-- Manifest text, lines, URLs: Rust `&str`/`String` as a list of characters. -/
abbrev Str := List Char

/-- `const EXT_X_VERSION: &str = "#EXT-X-VERSION:"` (main.rs:10). -/
def EXT_X_VERSION : Str := "#EXT-X-VERSION:".data

/-- `const EXT_X_TARGETDURATION` (main.rs:12). -/
def EXT_X_TARGETDURATION : Str := "#EXT-X-TARGETDURATION:".data

/-- `const EXT_X_PLAYLIST_TYPE` (main.rs:14). -/
def EXT_X_PLAYLIST_TYPE : Str := "#EXT-X-PLAYLIST-TYPE:".data

/-- `const EXT_X_MEDIA_SEQUENCE` (main.rs:16). -/
def EXT_X_MEDIA_SEQUENCE : Str := "#EXT-X-MEDIA-SEQUENCE:".data

/-- `const EXT_X_KEY` (main.rs:18). -/
def EXT_X_KEY : Str := "#EXT-X-KEY:".data

/-- `const METHOD: &str = "METHOD="` (main.rs:20). -/
def METHOD : Str := "METHOD=".data

/-- `const URL: &str = "URI="` (main.rs:22). -/
def URL : Str := "URI=".data

/-- `const IV: [u8; 16] = [0, ..., 0]` (main.rs:24). -/
def IV : List Nat := List.replicate 16 0

/-- Helper for Rust `str::split` with a nonempty string pattern: left-to-right
non-overlapping matches.  The fuel argument starts at the string's length and
strictly decreases at every step, so it never runs out. -/
def splitAux (pat : Str) : Nat → Str → Str → List Str
  | 0, cur, s => [cur.reverse ++ s]
  | _ + 1, cur, [] => [cur.reverse]
  | fuel + 1, cur, c :: rest =>
    if pat ≠ [] ∧ pat.isPrefixOf (c :: rest) then
      cur.reverse :: splitAux pat fuel [] ((c :: rest).drop pat.length)
    else
      splitAux pat fuel (c :: cur) rest

/-- Rust `s.split(pat)` for a nonempty string pattern. -/
def splitOnSub (pat : Str) (s : Str) : List Str := splitAux pat s.length [] s

/-- Rust `haystack.contains(needle)`: substring containment. -/
def containsSub : Str → Str → Bool
  | [], needle => needle.isEmpty
  | c :: rest, needle => needle.isPrefixOf (c :: rest) || containsSub rest needle

/-- Digits of a decimal numeral folded into a `Nat`. -/
def digitsToNat (s : Str) : Nat := s.foldl (fun a c => 10 * a + (c.toNat - 48)) 0

/-- Rust `str::parse::<u32>()`: optional leading `+`, then one or more ASCII
digits, value below `2^32`; anything else is `Err` (here `none`). -/
def parseU32 (s : Str) : Option Nat :=
  let t := match s with
    | '+' :: r => r
    | _ => s
  if t ≠ [] ∧ t.all Char.isDigit ∧ digitsToNat t < 4294967296 then
    some (digitsToNat t)
  else none

/-- `fn acquire_string` (main.rs:246-250): `context.split(keyword).last()`.
`split` always yields at least one piece, so the `unwrap` never fires. -/
def acquire_string (context keyword : Str) : Str :=
  (splitOnSub keyword context).getLastD []

/-- `fn acquire_u32` (main.rs:240-244): parse the text after the last
occurrence of `keyword`.  The source `unwrap`s the parse (a panic on
non-numeric or overflowing content); the panic is modelled as `none`. -/
def acquire_u32 (context keyword : Str) : Option Nat :=
  parseU32 ((splitOnSub keyword context).getLastD [])

/-- Abort causes of a run.  Rust surfaces some of these as panics (`unwrap`)
and some as propagated `Err` values; each constructor records the site. -/
inductive RunError where
  /-- `acquire_u32`'s `parse().unwrap()` panic on a malformed numeric
  directive value (main.rs:242). -/
  | parseError
  /-- `set_uri_list`'s `panic!("error")` when `uri_list` is `None`
  (main.rs:71); unreachable from `Ext::new`. -/
  | uriListPanic
  /-- `key_value.get(..).unwrap()` panic at the no-encryption gate
  (main.rs:197, main.rs:208). -/
  | keyFieldPanic
  /-- A failed resource fetch: segment fetch (`unwrap`, main.rs:230-235) or
  key fetch (`?`, main.rs:205-211). -/
  | networkError
  /-- `decrypt(..).unwrap()` panic on a cipher error (main.rs:121). -/
  | cryptoError
  deriving DecidableEq

/-- The `#EXT-X-KEY:` hash map (main.rs:159).  The source only ever inserts
under the two constant keys `METHOD` and `URL`, so the map is embedded as one
optional slot per key. -/
structure KeyMap where
  method : Option Str
  uri : Option Str
  deriving DecidableEq

/-- `struct Ext` (main.rs:26-34). -/
structure Ext where
  version : Option Nat
  target_duration : Option Nat
  play_list_type : Option Str
  media_sequence : Option Nat
  key : Option KeyMap
  uri_list : Option (List Str)
  deriving DecidableEq

/-- `Ext::new` (main.rs:37-46): everything `None` except `uri_list`. -/
def Ext.new : Ext :=
  { version := none, target_duration := none, play_list_type := none,
    media_sequence := none, key := none, uri_list := some [] }

/-- `Ext::set_uri_list` (main.rs:67-73): push onto `uri_list`, panicking if the
slot is `None`. -/
def set_uri_list (ext : Ext) (uri : Str) : Except RunError Ext :=
  match ext.uri_list with
  | some v => .ok { ext with uri_list := some (v ++ [uri]) }
  | none => .error .uriListPanic

/-- One comma-separated field of an `#EXT-X-KEY:` line (main.rs:164-177):
a `METHOD=` field stores the text after its last `METHOD=`; a `URI=` field
stores the text after its last `URI=` with every `"` removed
(`replace("\"", "")`); any other field leaves the map unchanged. -/
def insertKeyField (kh : KeyMap) (field : Str) : KeyMap :=
  let kh := if METHOD.isPrefixOf field then
      { kh with method := some ((splitOnSub METHOD field).getLastD []) }
    else kh
  if URL.isPrefixOf field then
    { kh with uri := some (((splitOnSub URL field).getLastD []).filter (fun c => c ≠ '"')) }
  else kh

/-- Fields of an `#EXT-X-KEY:` line folded into a key map (main.rs:158-177):
`line.split(EXT_X_KEY).last().unwrap().split(",")`, then the per-field
inserts. -/
def parseKeyLine (line : Str) : KeyMap :=
  (splitOnSub ",".data ((splitOnSub EXT_X_KEY line).getLastD [])).foldl
    insertKeyField { method := none, uri := none }

/-- The `EXT_X_VERSION` branch of `analyze` (main.rs:139-142). -/
def stepVersion (ext : Ext) (line : Str) : Except RunError Ext :=
  if EXT_X_VERSION.isPrefixOf line then
    match acquire_u32 line EXT_X_VERSION with
    | some v => .ok { ext with version := some v }
    | none => .error .parseError
  else .ok ext

/-- The `EXT_X_TARGETDURATION` branch of `analyze` (main.rs:143-146). -/
def stepTargetDuration (ext : Ext) (line : Str) : Except RunError Ext :=
  if EXT_X_TARGETDURATION.isPrefixOf line then
    match acquire_u32 line EXT_X_TARGETDURATION with
    | some v => .ok { ext with target_duration := some v }
    | none => .error .parseError
  else .ok ext

/-- The `EXT_X_PLAYLIST_TYPE` branch of `analyze` (main.rs:148-151); it can
never fail. -/
def stepPlayListType (ext : Ext) (line : Str) : Ext :=
  if EXT_X_PLAYLIST_TYPE.isPrefixOf line then
    { ext with play_list_type := some (acquire_string line EXT_X_PLAYLIST_TYPE) }
  else ext

/-- The `EXT_X_MEDIA_SEQUENCE` branch of `analyze` (main.rs:153-156). -/
def stepMediaSequence (ext : Ext) (line : Str) : Except RunError Ext :=
  if EXT_X_MEDIA_SEQUENCE.isPrefixOf line then
    match acquire_u32 line EXT_X_MEDIA_SEQUENCE with
    | some v => .ok { ext with media_sequence := some v }
    | none => .error .parseError
  else .ok ext

/-- The `EXT_X_KEY` branch of `analyze` (main.rs:158-180): `set_key` replaces
the whole key slot. -/
def stepKey (ext : Ext) (line : Str) : Ext :=
  if EXT_X_KEY.isPrefixOf line then { ext with key := some (parseKeyLine line) }
  else ext

/-- The suffix-containment branch of `analyze` (main.rs:182-184). -/
def stepUri (ext : Ext) (line sfx : Str) : Except RunError Ext :=
  if containsSub line sfx then set_uri_list ext line else .ok ext

/-- One iteration of `analyze`'s `for_each` (main.rs:138-185): the six
independent `if`s, in source order. -/
def analyzeLine (ext : Ext) (line sfx : Str) : Except RunError Ext :=
  match stepVersion ext line with
  | .error e => .error e
  | .ok e1 =>
    match stepTargetDuration e1 line with
    | .error e => .error e
    | .ok e2 =>
      match stepMediaSequence (stepPlayListType e2 line) line with
      | .error e => .error e
      | .ok e4 => stepUri (stepKey e4 line) line sfx

/-- The `for_each` of `analyze` over a list of lines. -/
def analyzeLines (sfx : Str) : Ext → List Str → Except RunError Ext
  | ext, [] => .ok ext
  | ext, l :: ls =>
    match analyzeLine ext l sfx with
    | .error e => .error e
    | .ok ext2 => analyzeLines sfx ext2 ls

/-- `fn analyze` (main.rs:133-187): split the manifest on `"\n"` and process
each line, starting (as `main` does, main.rs:103) from `Ext::new`. -/
def analyze (m3u8_value sfx : Str) : Except RunError Ext :=
  analyzeLines sfx Ext.new (splitOnSub "\n".data m3u8_value)

/-- Bytewise xor of two buffers (CBC chaining). -/
def xorBytes (a b : List Nat) : List Nat := List.zipWith (fun x y => x ^^^ y) a b

/-- Split a buffer into successive 16-byte blocks.  The fuel argument starts
at the buffer's length and strictly decreases, so it never runs out. -/
def chunksAux : Nat → List Nat → List (List Nat)
  | _, [] => []
  | 0, a :: l => [a :: l]
  | fuel + 1, a :: l => (a :: l).take 16 :: chunksAux fuel ((a :: l).drop 16)

/-- The 16-byte blocks of a buffer. -/
def chunks16 (l : List Nat) : List (List Nat) := chunksAux l.length l

/-- CBC encryption of a block sequence under block cipher `E` (the test
harness side of the decrypt round-trip): `c_i = E key (p_i xor c_(i-1))`,
seeded with the initialization vector. -/
def cbcEncBlocks (E : List Nat → List Nat → List Nat) (key : List Nat) :
    List Nat → List (List Nat) → List (List Nat)
  | _, [] => []
  | prev, b :: bs =>
    let c := E key (xorBytes prev b)
    c :: cbcEncBlocks E key c bs

/-- CBC decryption of a block sequence under block cipher `D`:
`p_i = D key c_i xor c_(i-1)`, seeded with the initialization vector. -/
def cbcDecBlocks (D : List Nat → List Nat → List Nat) (key : List Nat) :
    List Nat → List (List Nat) → List (List Nat)
  | _, [] => []
  | prev, c :: cs => xorBytes (D key c) prev :: cbcDecBlocks D key c cs

/-- PKCS padding: append `n` copies of `n`, where `n = 16 - len mod 16`. -/
def pkcsPad (p : List Nat) : List Nat :=
  p ++ List.replicate (16 - p.length % 16) (16 - p.length % 16)

/-- PKCS unpadding: the last byte `n` (with `1 ≤ n ≤ 16`) counts the padding
bytes, all of which must equal `n`; strip them.  Anything else is a padding
error. -/
def pkcsUnpad (l : List Nat) : Option (List Nat) :=
  match l.getLast? with
  | none => none
  | some n =>
    if 1 ≤ n ∧ n ≤ 16 ∧ n ≤ l.length ∧ (l.drop (l.length - n)).all (fun x => x == n) then
      some (l.take (l.length - n))
    else none

/-- CBC encryption of a whole padded plaintext (test harness side). -/
def cbcEncrypt (E : List Nat → List Nat → List Nat) (key iv p : List Nat) : List Nat :=
  (cbcEncBlocks E key iv (chunks16 (pkcsPad p))).flatten

/-- Raw (pre-unpadding) CBC decryption of a whole ciphertext. -/
def cbcRawDecrypt (D : List Nat → List Nat → List Nat) (key iv data : List Nat) : List Nat :=
  (cbcDecBlocks D key iv (chunks16 data)).flatten

/-- `fn decrypt` (main.rs:111-131).  The source makes a single
`cbc_decryptor(..).decrypt(..)` call into a fixed `[0; 819200]` buffer and
returns whatever was written (`take_read_buffer().take_remaining()`); a cipher
error is `unwrap`ped (a panic, here `.error .cryptoError`).

Modelled from the spec: the body of the external `crypto` crate call
(`aes::cbc_decryptor` with `KeySize128` and `blockmodes::PkcsPadding`) is not
part of this repository; per the spec it is a 128-bit-key block cipher in CBC
mode with PKCS padding, so it is embedded as CBC chaining over an abstract
block operation `D` plus PKCS unpadding.  Input that is not a positive
multiple of the block size, or whose padding is invalid, is a cipher error;
when the decrypted output does not fit the 819200-byte buffer, only the full
blocks that fit are written and no unpadding happens. -/
def decrypt (D : List Nat → List Nat → List Nat) (key iv data : List Nat) :
    Except RunError (List Nat) :=
  if data.length % 16 ≠ 0 ∨ data.length = 0 then .error .cryptoError
  else if data.length ≤ 819200 then
    match pkcsUnpad (cbcRawDecrypt D key iv data) with
    | some p => .ok p
    | none => .error .cryptoError
  else .ok ((cbcRawDecrypt D key iv data).take 819200)

/-- Everything a run of `down_load` leaves behind: the bytes written to the
output file in order, the URLs requested in order, and how the run ended
(`none` = returned `Ok(())`). -/
structure RunResult where
  written : List Nat
  fetched : List Str
  outcome : Option RunError
  deriving DecidableEq

/-- `format!("{}/{}", domain_name, uri)` (main.rs:230). -/
def segUrl (domain uri : Str) : Str := domain ++ '/' :: uri

/-- The plain download loop (main.rs:198-203): fetch each segment with
`request_resource` and write the bytes unmodified.  A failed fetch is
`unwrap`ped inside `request_resource` (main.rs:230-235), aborting the run on
the spot. -/
def runPlain (fetch : Str → Option (List Nat)) (domain : Str) :
    List Str → RunResult
  | [] => { written := [], fetched := [], outcome := none }
  | uri :: rest =>
    match fetch (segUrl domain uri) with
    | none => { written := [], fetched := [segUrl domain uri], outcome := some .networkError }
    | some buf =>
      let r := runPlain fetch domain rest
      { written := buf ++ r.written, fetched := segUrl domain uri :: r.fetched,
        outcome := r.outcome }

/-- The decrypting download loop (main.rs:212-218): fetch each segment,
decrypt it with the fetched key and the fixed `IV`, and write the result. -/
def runDecrypt (D : List Nat → List Nat → List Nat) (key : List Nat)
    (fetch : Str → Option (List Nat)) (domain : Str) : List Str → RunResult
  | [] => { written := [], fetched := [], outcome := none }
  | uri :: rest =>
    match fetch (segUrl domain uri) with
    | none => { written := [], fetched := [segUrl domain uri], outcome := some .networkError }
    | some buf =>
      match decrypt D key IV buf with
      | .error e => { written := [], fetched := [segUrl domain uri], outcome := some e }
      | .ok res =>
        let r := runDecrypt D key fetch domain rest
        { written := res ++ r.written, fetched := segUrl domain uri :: r.fetched,
          outcome := r.outcome }

/-- `fn down_load` (main.rs:189-224).  File creation and the progress
`println!` are observationally irrelevant and omitted; the `write_all` calls
are the `written` accumulation.  Note the source structure: the whole body
sits inside `if let Some(uri_list) ... if let Some(key_value) ...` with no
else branch, so a directive set without a key descriptor downloads nothing;
and the gate on line 197 short-circuits, so `get(URL)` is only `unwrap`ped
when the METHOD value is nonempty.  The key is fetched from
`format!("{}{}", domain_name, uri)` — no slash (main.rs:205-209). -/
def down_load (D : List Nat → List Nat → List Nat)
    (fetch : Str → Option (List Nat)) (domain : Str) (ext : Ext) : RunResult :=
  match ext.uri_list with
  | none => { written := [], fetched := [], outcome := none }
  | some uriList =>
    match ext.key with
    | none => { written := [], fetched := [], outcome := none }
    | some keyValue =>
      match keyValue.method with
      | none => { written := [], fetched := [], outcome := some .keyFieldPanic }
      | some m =>
        if m = [] then runPlain fetch domain uriList
        else
          match keyValue.uri with
          | none => { written := [], fetched := [], outcome := some .keyFieldPanic }
          | some kuri =>
            if kuri = [] then runPlain fetch domain uriList
            else
              match fetch (domain ++ kuri) with
              | none => { written := [], fetched := [domain ++ kuri], outcome := some .networkError }
              | some keyBytes =>
                let r := runDecrypt D keyBytes fetch domain uriList
                { written := r.written, fetched := (domain ++ kuri) :: r.fetched,
                  outcome := r.outcome }

/-- The last `#EXT-X-KEY:` line of a list of lines, if any. -/
def lastKeyLine (ls : List Str) : Option Str :=
  (ls.filter (fun l => EXT_X_KEY.isPrefixOf l)).getLast?

/-- A line that starts with one of the three numeric directive prefixes and
whose after-the-last-occurrence remainder does not parse as a `u32`. -/
def badNumericLine (l : Str) : Prop :=
  (EXT_X_VERSION.isPrefixOf l = true ∧ acquire_u32 l EXT_X_VERSION = none)
  ∨ (EXT_X_TARGETDURATION.isPrefixOf l = true ∧ acquire_u32 l EXT_X_TARGETDURATION = none)
  ∨ (EXT_X_MEDIA_SEQUENCE.isPrefixOf l = true ∧ acquire_u32 l EXT_X_MEDIA_SEQUENCE = none)

/-- Modelled from the spec: the claim's reading of "surrounding double quotes
stripped" — remove one leading and one trailing quote when both are present,
for comparison against the source's remove-all-quotes behavior. -/
def stripSurroundingQuotes (st : Str) : Str :=
  if 2 ≤ st.length ∧ st.head? = some '"' ∧ st.getLast? = some '"' then
    (st.drop 1).dropLast
  else st

/-! ### Helper lemmas: prefixes -/

theorem isPrefixOf_exists {p l : Str} (h : p.isPrefixOf l = true) :
    ∃ t, l = p ++ t := by
  induction p generalizing l with
  | nil => exact ⟨l, rfl⟩
  | cons a as ih =>
    cases l with
    | nil => simp [List.isPrefixOf] at h
    | cons b bs =>
      simp only [List.isPrefixOf, Bool.and_eq_true, beq_iff_eq] at h
      obtain ⟨t, ht⟩ := ih h.2
      exact ⟨t, by simp [h.1, ht]⟩

theorem td_not_version {l : Str} (h : EXT_X_TARGETDURATION.isPrefixOf l = true) :
    EXT_X_VERSION.isPrefixOf l = false := by
  obtain ⟨t, rfl⟩ := isPrefixOf_exists h
  rfl

theorem ms_not_version {l : Str} (h : EXT_X_MEDIA_SEQUENCE.isPrefixOf l = true) :
    EXT_X_VERSION.isPrefixOf l = false := by
  obtain ⟨t, rfl⟩ := isPrefixOf_exists h
  rfl

theorem ms_not_td {l : Str} (h : EXT_X_MEDIA_SEQUENCE.isPrefixOf l = true) :
    EXT_X_TARGETDURATION.isPrefixOf l = false := by
  obtain ⟨t, rfl⟩ := isPrefixOf_exists h
  rfl

/-! ### Helper lemmas: the per-line analysis steps -/

theorem stepVersion_ok {ext e' : Ext} {line : Str}
    (h : stepVersion ext line = .ok e') :
    e'.key = ext.key ∧ e'.uri_list = ext.uri_list := by
  unfold stepVersion at h
  split at h
  · split at h
    · injection h with h'
      subst h'
      exact ⟨rfl, rfl⟩
    · exact Except.noConfusion h
  · injection h with h'
    subst h'
    exact ⟨rfl, rfl⟩

theorem stepTargetDuration_ok {ext e' : Ext} {line : Str}
    (h : stepTargetDuration ext line = .ok e') :
    e'.key = ext.key ∧ e'.uri_list = ext.uri_list := by
  unfold stepTargetDuration at h
  split at h
  · split at h
    · injection h with h'
      subst h'
      exact ⟨rfl, rfl⟩
    · exact Except.noConfusion h
  · injection h with h'
    subst h'
    exact ⟨rfl, rfl⟩

theorem stepMediaSequence_ok {ext e' : Ext} {line : Str}
    (h : stepMediaSequence ext line = .ok e') :
    e'.key = ext.key ∧ e'.uri_list = ext.uri_list := by
  unfold stepMediaSequence at h
  split at h
  · split at h
    · injection h with h'
      subst h'
      exact ⟨rfl, rfl⟩
    · exact Except.noConfusion h
  · injection h with h'
    subst h'
    exact ⟨rfl, rfl⟩

theorem stepPlayListType_fields (ext : Ext) (line : Str) :
    (stepPlayListType ext line).key = ext.key
    ∧ (stepPlayListType ext line).uri_list = ext.uri_list := by
  unfold stepPlayListType
  split <;> exact ⟨rfl, rfl⟩

theorem stepKey_fields (ext : Ext) (line : Str) :
    (stepKey ext line).key
        = (if EXT_X_KEY.isPrefixOf line then some (parseKeyLine line) else ext.key)
    ∧ (stepKey ext line).uri_list = ext.uri_list := by
  unfold stepKey
  split <;> simp_all

theorem stepVersion_error {ext : Ext} {line : Str} {e : RunError}
    (h : stepVersion ext line = .error e) : e = .parseError := by
  unfold stepVersion at h
  split at h
  · split at h
    · exact Except.noConfusion h
    · injection h with h'
      exact h'.symm
  · exact Except.noConfusion h

theorem stepTargetDuration_error {ext : Ext} {line : Str} {e : RunError}
    (h : stepTargetDuration ext line = .error e) : e = .parseError := by
  unfold stepTargetDuration at h
  split at h
  · split at h
    · exact Except.noConfusion h
    · injection h with h'
      exact h'.symm
  · exact Except.noConfusion h

theorem stepMediaSequence_error {ext : Ext} {line : Str} {e : RunError}
    (h : stepMediaSequence ext line = .error e) : e = .parseError := by
  unfold stepMediaSequence at h
  split at h
  · split at h
    · exact Except.noConfusion h
    · injection h with h'
      exact h'.symm
  · exact Except.noConfusion h

theorem stepUri_ok {ext e' : Ext} {line sfx : Str} {v : List Str}
    (hv : ext.uri_list = some v) (h : stepUri ext line sfx = .ok e') :
    e'.key = ext.key
    ∧ e'.uri_list = some (if containsSub line sfx then v ++ [line] else v) := by
  unfold stepUri set_uri_list at h
  split at h
  · rename_i hc
    rw [hv] at h
    injection h with h'
    subst h'
    simp [hc]
  · rename_i hc
    injection h with h'
    subst h'
    simp [hv, hc]

theorem stepUri_key_of_ok {ext e' : Ext} {line sfx : Str}
    (h : stepUri ext line sfx = .ok e') : e'.key = ext.key := by
  unfold stepUri set_uri_list at h
  split at h
  · cases hu : ext.uri_list with
    | none => rw [hu] at h; exact Except.noConfusion h
    | some v =>
      rw [hu] at h
      injection h with h'
      subst h'
      rfl
  · injection h with h'
    subst h'
    rfl

/-- A successful `analyze` pass over one line: the key slot is overwritten
exactly when the line starts with `#EXT-X-KEY:`, and the line is appended to
`uri_list` exactly when it contains the suffix. -/
theorem analyzeLine_ok {ext e' : Ext} {line sfx : Str}
    (h : analyzeLine ext line sfx = .ok e') :
    e'.key = (if EXT_X_KEY.isPrefixOf line then some (parseKeyLine line) else ext.key)
    ∧ ∀ v, ext.uri_list = some v →
        e'.uri_list = some (if containsSub line sfx then v ++ [line] else v) := by
  unfold analyzeLine at h
  cases hv : stepVersion ext line with
  | error e => simp only [hv] at h; exact Except.noConfusion h
  | ok e1 =>
    simp only [hv] at h
    cases htd : stepTargetDuration e1 line with
    | error e => simp only [htd] at h; exact Except.noConfusion h
    | ok e2 =>
      simp only [htd] at h
      cases hms : stepMediaSequence (stepPlayListType e2 line) line with
      | error e => simp only [hms] at h; exact Except.noConfusion h
      | ok e4 =>
        simp only [hms] at h
        have h1 := stepVersion_ok hv
        have h2 := stepTargetDuration_ok htd
        have h3 := stepMediaSequence_ok hms
        have hp := stepPlayListType_fields e2 line
        have hk := stepKey_fields e4 line
        constructor
        · have hu := stepUri_key_of_ok h
          rw [hu, hk.1, h3.1, hp.1, h2.1, h1.1]
        · intro v hvv
          have : (stepKey e4 line).uri_list = some v := by
            rw [hk.2, h3.2, hp.2, h2.2, h1.2]
            exact hvv
          exact (stepUri_ok this h).2

/-- `analyze` can only abort with a parse error while `uri_list` is intact. -/
theorem analyzeLine_error {ext : Ext} {line sfx : Str} {e : RunError}
    (hsome : ext.uri_list.isSome) (h : analyzeLine ext line sfx = .error e) :
    e = .parseError := by
  unfold analyzeLine at h
  cases hv : stepVersion ext line with
  | error e1 =>
    simp only [hv] at h
    injection h with h'
    subst h'
    exact stepVersion_error hv
  | ok e1 =>
    simp only [hv] at h
    cases htd : stepTargetDuration e1 line with
    | error e2 =>
      simp only [htd] at h
      injection h with h'
      subst h'
      exact stepTargetDuration_error htd
    | ok e2 =>
      simp only [htd] at h
      cases hms : stepMediaSequence (stepPlayListType e2 line) line with
      | error e3 =>
        simp only [hms] at h
        injection h with h'
        subst h'
        exact stepMediaSequence_error hms
      | ok e4 =>
        simp only [hms] at h
        exfalso
        obtain ⟨v, hvv⟩ := Option.isSome_iff_exists.mp hsome
        have h1 := stepVersion_ok hv
        have h2 := stepTargetDuration_ok htd
        have h3 := stepMediaSequence_ok hms
        have hp := stepPlayListType_fields e2 line
        have hk := stepKey_fields e4 line
        have hv4 : (stepKey e4 line).uri_list = some v := by
          rw [hk.2, h3.2, hp.2, h2.2, h1.2]
          exact hvv
        unfold stepUri set_uri_list at h
        split at h
        · rw [hv4] at h
          exact Except.noConfusion h
        · exact Except.noConfusion h

/-! ### Helper lemmas: whole-manifest analysis -/

theorem getLast?_cons {α : Type} (a : α) (l : List α) :
    (a :: l).getLast? = l.getLast?.or (some a) := by
  have h2 := @List.getLast?_append _ [a] l
  simpa using h2

theorem analyzeLines_uri {sfx : Str} {ls : List Str} {ext ext' : Ext} {v : List Str}
    (h : analyzeLines sfx ext ls = .ok ext') (hv : ext.uri_list = some v) :
    ext'.uri_list = some (v ++ ls.filter (fun l => containsSub l sfx)) := by
  induction ls generalizing ext v with
  | nil =>
    unfold analyzeLines at h
    injection h with h'
    subst h'
    simpa using hv
  | cons l ls ih =>
    unfold analyzeLines at h
    cases ha : analyzeLine ext l sfx with
    | error e => rw [ha] at h; exact Except.noConfusion h
    | ok ext2 =>
      rw [ha] at h
      have h2 := (analyzeLine_ok ha).2 v hv
      have h3 := ih h h2
      rw [h3, List.filter_cons]
      cases hc : containsSub l sfx with
      | true => simp [hc]
      | false => simp [hc]

theorem analyzeLines_key {sfx : Str} {ls : List Str} {ext ext' : Ext}
    (h : analyzeLines sfx ext ls = .ok ext') :
    ext'.key = ((lastKeyLine ls).map parseKeyLine).or ext.key := by
  induction ls generalizing ext with
  | nil =>
    unfold analyzeLines at h
    injection h with h'
    subst h'
    simp [lastKeyLine]
  | cons l ls ih =>
    unfold analyzeLines at h
    cases ha : analyzeLine ext l sfx with
    | error e => rw [ha] at h; exact Except.noConfusion h
    | ok ext2 =>
      rw [ha] at h
      have h1 := (analyzeLine_ok ha).1
      have h3 := ih h
      rw [h3, h1]
      unfold lastKeyLine
      rw [List.filter_cons]
      cases hk : EXT_X_KEY.isPrefixOf l with
      | true =>
        simp only [hk, if_pos, getLast?_cons]
        cases hl : (ls.filter (fun l => EXT_X_KEY.isPrefixOf l)).getLast? with
        | none => simp [lastKeyLine, hl]
        | some x => simp [lastKeyLine, hl]
      | false => simp [lastKeyLine, hk]

theorem analyzeLine_bad {ext : Ext} {l sfx : Str} (hb : badNumericLine l) :
    analyzeLine ext l sfx = .error .parseError := by
  rcases hb with ⟨h1, h2⟩ | ⟨h1, h2⟩ | ⟨h1, h2⟩
  · simp [analyzeLine, stepVersion, h1, h2]
  · simp [analyzeLine, stepVersion, stepTargetDuration, td_not_version h1, h1, h2]
  · simp [analyzeLine, stepVersion, stepTargetDuration, stepMediaSequence,
      ms_not_version h1, ms_not_td h1, h1, h2]

theorem analyzeLines_err {sfx : Str} {ls : List Str} {ext : Ext}
    (hsome : ext.uri_list.isSome) (hb : ∃ l ∈ ls, badNumericLine l) :
    analyzeLines sfx ext ls = .error .parseError := by
  induction ls generalizing ext with
  | nil => simp at hb
  | cons l ls ih =>
    unfold analyzeLines
    rcases hb with ⟨l', hl', hbad⟩
    rcases List.mem_cons.mp hl' with rfl | hmem
    · rw [analyzeLine_bad hbad]
    · cases ha : analyzeLine ext l sfx with
      | error e =>
        have he := analyzeLine_error hsome ha
        subst he
        rfl
      | ok ext2 =>
        obtain ⟨v, hv⟩ := Option.isSome_iff_exists.mp hsome
        have h2 := (analyzeLine_ok ha).2 v hv
        exact ih (by simp [h2]) ⟨l', hmem, hbad⟩

/-! ### Helper lemmas: key-line field folding -/

theorem insertKeyField_method (kh : KeyMap) (f : Str) :
    (insertKeyField kh f).method
      = if METHOD.isPrefixOf f then some ((splitOnSub METHOD f).getLastD [])
        else kh.method := by
  unfold insertKeyField
  split <;> split <;> rfl

theorem insertKeyField_uri (kh : KeyMap) (f : Str) :
    (insertKeyField kh f).uri
      = if URL.isPrefixOf f then
          some (((splitOnSub URL f).getLastD []).filter (fun c => c ≠ '"'))
        else kh.uri := by
  unfold insertKeyField
  split <;> split <;> rfl

theorem foldl_insertKeyField (fields : List Str) (kh : KeyMap) :
    fields.foldl insertKeyField kh
      = { method := (((fields.filter (fun f => METHOD.isPrefixOf f)).getLast?).map
            (fun f => (splitOnSub METHOD f).getLastD [])).or kh.method,
          uri := (((fields.filter (fun f => URL.isPrefixOf f)).getLast?).map
            (fun f => ((splitOnSub URL f).getLastD []).filter (fun c => c ≠ '"'))).or kh.uri } := by
  induction fields generalizing kh with
  | nil => simp
  | cons f fs ih =>
    rw [List.foldl_cons, ih, List.filter_cons, List.filter_cons]
    simp only [KeyMap.mk.injEq]
    constructor
    · rw [insertKeyField_method]
      cases hp : METHOD.isPrefixOf f with
      | true =>
        simp only [if_pos, getLast?_cons]
        cases (fs.filter (fun f => METHOD.isPrefixOf f)).getLast? <;> simp
      | false => simp
    · rw [insertKeyField_uri]
      cases hp : URL.isPrefixOf f with
      | true =>
        simp only [if_pos, getLast?_cons]
        cases (fs.filter (fun f => URL.isPrefixOf f)).getLast? <;> simp
      | false => simp

/-! ### Claim theorems -/

/-- C1 (code bug witness): a directive set with no key descriptor and a
nonempty segment list completes "successfully" while fetching nothing and
writing nothing — `down_load` has no branch for `ext.key = None`
(main.rs:194-221), so the claimed as-is download never happens. -/
theorem c1_no_key_skips_all_segments :
    down_load (fun _ b => b) (fun _ => some [1, 2, 3]) "d".data
      { version := none, target_duration := none, play_list_type := none,
        media_sequence := none, key := none, uri_list := some ["seg1.ts".data] }
      = { written := [], fetched := [], outcome := none } := rfl

/-- C2 (code bug witness): a run over a keyless directive set with two
segment references completes without error, yet the bytes written are empty
rather than the concatenation of the two segments' contents — every segment
is skipped. -/
theorem c2_ok_run_writes_nothing_without_key :
    down_load (fun _ b => b) (fun _ => some [201, 202]) "d".data
      { version := none, target_duration := none, play_list_type := none,
        media_sequence := none, key := none,
        uri_list := some ["a.ts".data, "b.ts".data] }
      = { written := [], fetched := [], outcome := none }
    ∧ ([] : List Nat) ≠ [201, 202] ++ [201, 202] :=
  ⟨rfl, by decide⟩

/-- C4 counterexample: in the line
`#EXT-X-VERSION:#EXT-X-VERSION:7` the remainder after the `#EXT-X-VERSION:`
prefix is `#EXT-X-VERSION:7`, which is not a valid unsigned integer; the
claim then demands a parse failure, but `analyze` succeeds with
`version = 7`, because `split(keyword).last()` takes the text after the
last occurrence of the keyword. -/
theorem c4_counterexample_repeated_directive :
    EXT_X_VERSION.isPrefixOf "#EXT-X-VERSION:#EXT-X-VERSION:7".data = true
    ∧ parseU32 ("#EXT-X-VERSION:#EXT-X-VERSION:7".data.drop EXT_X_VERSION.length) = none
    ∧ analyze "#EXT-X-VERSION:#EXT-X-VERSION:7".data ".ts".data
        = .ok { version := some 7, target_duration := none, play_list_type := none,
                media_sequence := none, key := none, uri_list := some [] } :=
  ⟨rfl, rfl, rfl⟩

/-- C4 (amended): for every manifest text containing a line that starts with
`#EXT-X-VERSION:`, `#EXT-X-TARGETDURATION:` or `#EXT-X-MEDIA-SEQUENCE:` and
whose text after the last occurrence of that prefix is not a valid base-10
`u32` (non-numeric or overflowing), `analyze` fails the whole parse with a
parse error instead of returning a directive set. -/
theorem c4_malformed_numeric_fails_parse (text sfx l : Str)
    (hmem : l ∈ splitOnSub "\n".data text) (hb : badNumericLine l) :
    analyze text sfx = .error .parseError :=
  analyzeLines_err rfl ⟨l, hmem, hb⟩

/-- C4 witness: a manifest with a non-numeric version value fails to parse. -/
theorem c4_malformed_numeric_fails_parse_witness :
    ("#EXT-X-VERSION:abc".data ∈ splitOnSub "\n".data "#EXT-X-VERSION:abc".data
      ∧ badNumericLine "#EXT-X-VERSION:abc".data)
    ∧ analyze "#EXT-X-VERSION:abc".data ".ts".data = .error .parseError :=
  ⟨⟨by decide, Or.inl ⟨rfl, rfl⟩⟩,
    c4_malformed_numeric_fails_parse _ _ "#EXT-X-VERSION:abc".data (by decide)
      (Or.inl ⟨rfl, rfl⟩)⟩

/-- C5: for every manifest text and suffix, a successful `analyze` records in
`uri_list` exactly those lines that contain the suffix as a substring
(whether or not they also matched a directive prefix), in encounter order. -/
theorem c5_uri_list_is_suffix_filter (text sfx : Str) (ext : Ext)
    (h : analyze text sfx = .ok ext) :
    ext.uri_list
      = some ((splitOnSub "\n".data text).filter (fun l => containsSub l sfx)) := by
  unfold analyze at h
  simpa using analyzeLines_uri h rfl

/-- C5 witness: a directive line containing `.ts` is captured alongside the
real segment lines, in order. -/
theorem c5_uri_list_is_suffix_filter_witness :
    (analyze "a.ts\nhello\nc.ts".data ".ts".data
      = .ok { version := none, target_duration := none, play_list_type := none,
              media_sequence := none, key := none,
              uri_list := some ["a.ts".data, "c.ts".data] })
    ∧ ({ version := none, target_duration := none, play_list_type := none,
         media_sequence := none, key := none,
         uri_list := some ["a.ts".data, "c.ts".data]} : Ext).uri_list
      = some ((splitOnSub "\n".data "a.ts\nhello\nc.ts".data).filter
          (fun l => containsSub l ".ts".data)) :=
  ⟨rfl, c5_uri_list_is_suffix_filter _ _ _ rfl⟩

/-- C6 counterexample: for the field `URI=a"b"c`, the source removes every
double quote (`replace("\"", "")`), yielding `abc`, whereas the claimed
"surrounding double quotes stripped" leaves `a"b"c` unchanged. -/
theorem c6_all_quotes_removed_counterexample :
    parseKeyLine "#EXT-X-KEY:URI=a\"b\"c".data
      = { method := none, uri := some "abc".data }
    ∧ stripSurroundingQuotes "a\"b\"c".data = "a\"b\"c".data
    ∧ ({ method := none, uri := some "abc".data } : KeyMap).uri
        ≠ some (stripSurroundingQuotes "a\"b\"c".data) :=
  ⟨rfl, rfl, by decide⟩

/-- C6 (amended): the `#EXT-X-KEY:` remainder is split on commas; the key
mapping's METHOD slot holds the value of the last field starting with
`METHOD=` (the text after its last `METHOD=`) and its URI slot holds the
value of the last field starting with `URI=` with every double-quote
character removed; fields matching neither prefix are ignored.  In
particular `#EXT-X-KEY:METHOD=AES-128,URI="key.bin"` yields
METHOD -> `AES-128` and URI -> `key.bin`. -/
theorem c6_key_fields_last_wins (fields : List Str) :
    fields.foldl insertKeyField { method := none, uri := none }
      = { method := ((fields.filter (fun f => METHOD.isPrefixOf f)).getLast?).map
            (fun f => (splitOnSub METHOD f).getLastD []),
          uri := ((fields.filter (fun f => URL.isPrefixOf f)).getLast?).map
            (fun f => ((splitOnSub URL f).getLastD []).filter (fun c => c ≠ '"')) }
    ∧ parseKeyLine "#EXT-X-KEY:METHOD=AES-128,URI=\"key.bin\"".data
        = { method := some "AES-128".data, uri := some "key.bin".data } :=
  ⟨by rw [foldl_insertKeyField]; simp, rfl⟩

/-- C7: for every manifest text, a successful `analyze` holds a key
descriptor iff at least one `#EXT-X-KEY:` line occurred, and it is the one
parsed from the last such line (each key line fully replaces the slot). -/
theorem c7_key_is_last_key_line (text sfx : Str) (ext : Ext)
    (h : analyze text sfx = .ok ext) :
    ext.key = (lastKeyLine (splitOnSub "\n".data text)).map parseKeyLine := by
  unfold analyze at h
  simpa [Ext.new] using analyzeLines_key h

/-- C7 witness: with two key lines, the second one wins. -/
theorem c7_key_is_last_key_line_witness :
    (analyze "#EXT-X-KEY:METHOD=a\n#EXT-X-KEY:METHOD=b".data ".ts".data
      = .ok { version := none, target_duration := none, play_list_type := none,
              media_sequence := none,
              key := some { method := some "b".data, uri := none },
              uri_list := some [] })
    ∧ ({ version := none, target_duration := none, play_list_type := none,
         media_sequence := none,
         key := some { method := some "b".data, uri := none },
         uri_list := some [] } : Ext).key
      = (lastKeyLine (splitOnSub "\n".data
          "#EXT-X-KEY:METHOD=a\n#EXT-X-KEY:METHOD=b".data)).map parseKeyLine :=
  ⟨rfl, c7_key_is_last_key_line "#EXT-X-KEY:METHOD=a\n#EXT-X-KEY:METHOD=b".data ".ts".data _ rfl⟩

/-- C9 counterexample: a key descriptor whose METHOD value is present but
empty and whose URI entry is absent does not panic: the gate's `||`
short-circuits before `get(URL).unwrap()` and the run takes the plain
download path and completes. -/
theorem c9_empty_method_missing_uri_no_panic :
    down_load (fun _ b => b) (fun _ => some [7]) "d".data
      { version := none, target_duration := none, play_list_type := none,
        media_sequence := none, key := some { method := some [], uri := none },
        uri_list := some ["s.ts".data] }
      = { written := [7], fetched := [segUrl "d".data "s.ts".data], outcome := none } := rfl

/-- C9 (amended): with a key descriptor present, the pipeline panics at the
gate when the METHOD entry is absent, or when the METHOD value is nonempty
and the URI entry is absent; when the METHOD value is present and empty the
missing URI entry is never consulted and the run takes the plain download
path. -/
theorem c9_key_lookup_panic_cases (D : List Nat → List Nat → List Nat)
    (fetch : Str → Option (List Nat)) (domain : Str) (ext : Ext) (kv : KeyMap)
    (uris : List Str) (hu : ext.uri_list = some uris) (hk : ext.key = some kv) :
    (kv.method = none → down_load D fetch domain ext
        = { written := [], fetched := [], outcome := some .keyFieldPanic })
    ∧ (∀ m, kv.method = some m → m ≠ [] → kv.uri = none →
        down_load D fetch domain ext
          = { written := [], fetched := [], outcome := some .keyFieldPanic })
    ∧ (kv.method = some [] → down_load D fetch domain ext = runPlain fetch domain uris) := by
  unfold down_load
  refine ⟨fun hm => ?_, fun m hm hne hur => ?_, fun hm => ?_⟩
  · simp [hu, hk, hm]
  · simp [hu, hk, hm, hne, hur]
  · simp [hu, hk, hm]

/-- C9 witness: a key descriptor with no recognized field panics at the gate
before anything is fetched or written. -/
theorem c9_key_lookup_panic_cases_witness :
    down_load (fun _ b => b) (fun _ => some []) "d".data
      { version := none, target_duration := none, play_list_type := none,
        media_sequence := none, key := some { method := none, uri := none },
        uri_list := some [] }
      = { written := [], fetched := [], outcome := some .keyFieldPanic } :=
  (c9_key_lookup_panic_cases _ _ _ _ _ _ rfl rfl).1 rfl

/-! ### Helper lemmas: CBC and padding -/

theorem xorBytes_length (a b : List Nat) :
    (xorBytes a b).length = min a.length b.length := by
  simp [xorBytes]

theorem xorBytes_cancel : ∀ {a b : List Nat}, a.length = b.length →
    xorBytes (xorBytes a b) a = b := by
  intro a
  induction a with
  | nil =>
    intro b hb
    simp [xorBytes] at hb ⊢
    exact List.eq_nil_of_length_eq_zero hb.symm
  | cons x xs ih =>
    intro b hb
    cases b with
    | nil => simp at hb
    | cons y ys =>
      simp only [List.length_cons, Nat.add_right_cancel_iff] at hb
      simp only [xorBytes, List.zipWith_cons_cons, List.cons.injEq]
      refine ⟨?_, ih hb⟩
      rw [Nat.xor_comm x y, Nat.xor_assoc, Nat.xor_self, Nat.xor_zero]

theorem chunksAux_fuel : ∀ (f g : Nat) (l : List Nat),
    l.length ≤ f → l.length ≤ g → chunksAux f l = chunksAux g l := by
  intro f
  induction f with
  | zero =>
    intro g l hf _
    have : l = [] := List.eq_nil_of_length_eq_zero (Nat.le_zero.mp hf)
    subst this
    cases g <;> rfl
  | succ f ih =>
    intro g l hf hg
    cases l with
    | nil => cases g <;> rfl
    | cons a l' =>
      cases g with
      | zero => simp at hg
      | succ g =>
        show (a :: l').take 16 :: chunksAux f ((a :: l').drop 16)
            = (a :: l').take 16 :: chunksAux g ((a :: l').drop 16)
        have hd : ((a :: l').drop 16).length = (a :: l').length - 16 := by
          simp
        refine congrArg _ (ih g _ ?_ ?_) <;> omega

theorem chunks16_append16 {b : List Nat} (rest : List Nat) (hb : b.length = 16) :
    chunks16 (b ++ rest) = b :: chunks16 rest := by
  cases b with
  | nil => simp at hb
  | cons a bt =>
    unfold chunks16
    have hlen : ((a :: bt) ++ rest).length = (15 + rest.length) + 1 := by
      simp at hb ⊢
      omega
    rw [hlen]
    show ((a :: bt) ++ rest).take 16 :: chunksAux (15 + rest.length) (((a :: bt) ++ rest).drop 16)
        = (a :: bt) :: chunksAux rest.length rest
    rw [show (16 : Nat) = (a :: bt).length from hb.symm, List.take_left, List.drop_left]
    exact congrArg _ (chunksAux_fuel _ _ _ (by omega) le_rfl)

theorem chunks16_flatten : ∀ {L : List (List Nat)},
    (∀ b ∈ L, b.length = 16) → chunks16 L.flatten = L := by
  intro L
  induction L with
  | nil => intro _; rfl
  | cons b L' ih =>
    intro h
    rw [List.flatten_cons, chunks16_append16 _ (h b (by simp)),
      ih (fun x hx => h x (by simp [hx]))]

theorem chunksAux_flatten_self : ∀ (f : Nat) (l : List Nat),
    l.length ≤ f → (chunksAux f l).flatten = l := by
  intro f
  induction f with
  | zero =>
    intro l hf
    have : l = [] := List.eq_nil_of_length_eq_zero (Nat.le_zero.mp hf)
    subst this
    rfl
  | succ f ih =>
    intro l hf
    cases l with
    | nil => rfl
    | cons a l' =>
      show ((a :: l').take 16 :: chunksAux f ((a :: l').drop 16)).flatten = a :: l'
      rw [List.flatten_cons, ih _ (by simp at hf ⊢; omega), List.take_append_drop]

theorem chunks16_flatten_self (l : List Nat) : (chunks16 l).flatten = l :=
  chunksAux_flatten_self _ _ le_rfl

theorem chunksAux_all16 : ∀ (f : Nat) (l : List Nat), l.length ≤ f →
    l.length % 16 = 0 → ∀ c ∈ chunksAux f l, c.length = 16 := by
  intro f
  induction f with
  | zero =>
    intro l hf _
    have : l = [] := List.eq_nil_of_length_eq_zero (Nat.le_zero.mp hf)
    subst this
    simp [chunksAux]
  | succ f ih =>
    intro l hf hm
    cases l with
    | nil => simp [chunksAux]
    | cons a l' =>
      intro c hc
      have hl0 : (a :: l').length = l'.length + 1 := rfl
      have hlen : 16 ≤ (a :: l').length := by omega
      rcases List.mem_cons.mp hc with rfl | hmem
      · rw [List.length_take, Nat.min_eq_left (by omega)]
      · refine ih _ ?_ ?_ c hmem
        · rw [List.length_drop]
          omega
        · rw [List.length_drop]
          omega

theorem chunks16_all16 {l : List Nat} (h : l.length % 16 = 0) :
    ∀ c ∈ chunks16 l, c.length = 16 :=
  chunksAux_all16 _ _ le_rfl h

theorem flatten_all16_length : ∀ {L : List (List Nat)},
    (∀ b ∈ L, b.length = 16) → L.flatten.length = 16 * L.length := by
  intro L
  induction L with
  | nil => intro _; rfl
  | cons b L' ih =>
    intro h
    rw [List.flatten_cons, List.length_append, ih (fun x hx => h x (by simp [hx])),
      h b (by simp), List.length_cons]
    ring

theorem cbcEncBlocks_all16 {E : List Nat → List Nat → List Nat} {key : List Nat}
    (hE : ∀ b, b.length = 16 → (E key b).length = 16) :
    ∀ (blocks : List (List Nat)) (prev : List Nat),
      (∀ b ∈ blocks, b.length = 16) → prev.length = 16 →
      ∀ c ∈ cbcEncBlocks E key prev blocks, c.length = 16 := by
  intro blocks
  induction blocks with
  | nil => intro prev _ _ c hc; simp [cbcEncBlocks] at hc
  | cons b bs ih =>
    intro prev hall hprev c hc
    have hxb : (xorBytes prev b).length = 16 := by
      rw [xorBytes_length, hprev, hall b (by simp)]
      simp
    rcases List.mem_cons.mp hc with rfl | hmem
    · exact hE _ hxb
    · exact ih _ (fun x hx => hall x (by simp [hx])) (hE _ hxb) c hmem

theorem cbcEncBlocks_length (E : List Nat → List Nat → List Nat) (key : List Nat) :
    ∀ (blocks : List (List Nat)) (prev : List Nat),
      (cbcEncBlocks E key prev blocks).length = blocks.length := by
  intro blocks
  induction blocks with
  | nil => intro prev; rfl
  | cons b bs ih => intro prev; simp [cbcEncBlocks, ih]

theorem cbcDecBlocks_length (D : List Nat → List Nat → List Nat) (key : List Nat) :
    ∀ (cs : List (List Nat)) (prev : List Nat),
      (cbcDecBlocks D key prev cs).length = cs.length := by
  intro cs
  induction cs with
  | nil => intro prev; rfl
  | cons c cs' ih => intro prev; simp [cbcDecBlocks, ih]

theorem cbcDecBlocks_encBlocks {E D : List Nat → List Nat → List Nat} {key : List Nat}
    (hE : ∀ b, b.length = 16 → (E key b).length = 16)
    (hD : ∀ b, b.length = 16 → D key (E key b) = b) :
    ∀ (blocks : List (List Nat)) (prev : List Nat),
      (∀ b ∈ blocks, b.length = 16) → prev.length = 16 →
      cbcDecBlocks D key prev (cbcEncBlocks E key prev blocks) = blocks := by
  intro blocks
  induction blocks with
  | nil => intro prev _ _; rfl
  | cons b bs ih =>
    intro prev hall hprev
    have hb : b.length = 16 := hall b (by simp)
    have hxb : (xorBytes prev b).length = 16 := by
      rw [xorBytes_length, hprev, hb]
      simp
    show xorBytes (D key (E key (xorBytes prev b))) prev
          :: cbcDecBlocks D key (E key (xorBytes prev b))
              (cbcEncBlocks E key (E key (xorBytes prev b)) bs)
        = b :: bs
    rw [hD _ hxb, xorBytes_cancel (by omega),
      ih _ (fun x hx => hall x (by simp [hx])) (hE _ hxb)]

theorem getLast?_replicate (n x : Nat) (h : n ≠ 0) :
    (List.replicate n x).getLast? = some x := by
  induction n with
  | zero => simp at h
  | succ n ih =>
    rw [List.replicate_succ, getLast?_cons]
    cases n with
    | zero => rfl
    | succ m =>
      rw [ih (by omega)]
      rfl

theorem getLast?_append_replicate (p : List Nat) (n x : Nat) (h : n ≠ 0) :
    (p ++ List.replicate n x).getLast? = some x := by
  rw [List.getLast?_append, getLast?_replicate _ _ h]
  rfl

theorem pkcsPad_length (p : List Nat) :
    (pkcsPad p).length = p.length + (16 - p.length % 16) := by
  simp [pkcsPad]

theorem pkcsPad_mod (p : List Nat) : (pkcsPad p).length % 16 = 0 := by
  rw [pkcsPad_length]
  have : p.length % 16 < 16 := Nat.mod_lt _ (by omega)
  omega

theorem pkcsPad_pos (p : List Nat) : (pkcsPad p).length ≠ 0 := by
  rw [pkcsPad_length]
  have : p.length % 16 < 16 := Nat.mod_lt _ (by omega)
  omega

theorem pkcsUnpad_pad (p : List Nat) : pkcsUnpad (pkcsPad p) = some p := by
  have hr : p.length % 16 < 16 := Nat.mod_lt _ (by omega)
  have hg : (pkcsPad p).getLast? = some (16 - p.length % 16) :=
    getLast?_append_replicate _ _ _ (by omega)
  have hlen : (pkcsPad p).length - (16 - p.length % 16) = p.length := by
    rw [pkcsPad_length]
    omega
  unfold pkcsUnpad
  simp only [hg, hlen]
  rw [if_pos]
  · show some ((p ++ List.replicate (16 - p.length % 16) (16 - p.length % 16)).take p.length)
        = some p
    rw [List.take_left]
  · refine ⟨by omega, by omega, by rw [pkcsPad_length]; omega, ?_⟩
    show ((p ++ List.replicate (16 - p.length % 16) (16 - p.length % 16)).drop p.length).all _
        = true
    rw [List.drop_left]
    simp [List.all_eq_true, List.mem_replicate]

theorem pkcsUnpad_some {l p : List Nat} (h : pkcsUnpad l = some p) :
    ∃ k, 1 ≤ k ∧ k ≤ l.length ∧ p = l.take (l.length - k) := by
  unfold pkcsUnpad at h
  cases hg : l.getLast? with
  | none =>
    simp only [hg] at h
    exact Option.noConfusion h
  | some n =>
    simp only [hg] at h
    split at h
    · rename_i hcond
      injection h with h'
      exact ⟨n, hcond.1, hcond.2.2.1, h'.symm⟩
    · exact Option.noConfusion h

theorem pkcsUnpad_length_le {l p : List Nat} (h : pkcsUnpad l = some p) :
    p.length ≤ l.length := by
  obtain ⟨k, _, _, rfl⟩ := pkcsUnpad_some h
  rw [List.length_take]
  omega

theorem IV_length : IV.length = 16 := by
  simp [IV]

theorem cbcEncrypt_length {E : List Nat → List Nat → List Nat} {key : List Nat}
    (hE : ∀ b, b.length = 16 → (E key b).length = 16) (p : List Nat) :
    (cbcEncrypt E key IV p).length = (pkcsPad p).length := by
  unfold cbcEncrypt
  have hall := chunks16_all16 (pkcsPad_mod p)
  rw [flatten_all16_length (cbcEncBlocks_all16 hE _ _ hall IV_length),
    cbcEncBlocks_length]
  calc 16 * (chunks16 (pkcsPad p)).length
      = (chunks16 (pkcsPad p)).flatten.length := (flatten_all16_length hall).symm
    _ = (pkcsPad p).length := by rw [chunks16_flatten_self]

theorem cbcRawDecrypt_of_encrypt {E D : List Nat → List Nat → List Nat} {key : List Nat}
    (hE : ∀ b, b.length = 16 → (E key b).length = 16)
    (hD : ∀ b, b.length = 16 → D key (E key b) = b) (p : List Nat) :
    cbcRawDecrypt D key IV (cbcEncrypt E key IV p) = pkcsPad p := by
  unfold cbcRawDecrypt cbcEncrypt
  have hall := chunks16_all16 (pkcsPad_mod p)
  rw [chunks16_flatten (cbcEncBlocks_all16 hE _ _ hall IV_length),
    cbcDecBlocks_encBlocks hE hD _ _ hall IV_length, chunks16_flatten_self]

theorem decrypt_cbcEncrypt {E D : List Nat → List Nat → List Nat} {key : List Nat}
    (hE : ∀ b, b.length = 16 → (E key b).length = 16)
    (hD : ∀ b, b.length = 16 → D key (E key b) = b)
    (p : List Nat) (hp : p.length ≤ 819200) :
    decrypt D key IV (cbcEncrypt E key IV p) = .ok p := by
  have hdl := cbcEncrypt_length hE p
  have hmod := pkcsPad_mod p
  have hpos := pkcsPad_pos p
  have hplen := pkcsPad_length p
  have hr : p.length % 16 < 16 := Nat.mod_lt _ (by omega)
  unfold decrypt
  rw [if_neg (by rw [hdl]; omega)]
  by_cases hc : p.length = 819200
  · rw [if_neg (by rw [hdl]; omega)]
    rw [cbcRawDecrypt_of_encrypt hE hD]
    unfold pkcsPad
    rw [show (819200 : Nat) = p.length from hc.symm, List.take_left]
  · rw [if_pos (by rw [hdl]; omega)]
    rw [cbcRawDecrypt_of_encrypt hE hD, pkcsUnpad_pad]

theorem cbcDecBlocks_all16 {D : List Nat → List Nat → List Nat} {key : List Nat}
    (hD16 : ∀ c, (D key c).length = 16) :
    ∀ (cs : List (List Nat)) (prev : List Nat),
      (∀ c ∈ cs, c.length = 16) → prev.length = 16 →
      ∀ b ∈ cbcDecBlocks D key prev cs, b.length = 16 := by
  intro cs
  induction cs with
  | nil => intro prev _ _ b hb; simp [cbcDecBlocks] at hb
  | cons c cs' ih =>
    intro prev hall hprev b hb
    rcases List.mem_cons.mp hb with rfl | hmem
    · rw [xorBytes_length, hD16, hprev]
      simp
    · exact ih _ (fun x hx => hall x (by simp [hx])) (hall c (by simp)) b hmem

theorem cbcRawDecrypt_length {D : List Nat → List Nat → List Nat} {key d : List Nat}
    (hD16 : ∀ c, (D key c).length = 16) (hmod : d.length % 16 = 0) :
    (cbcRawDecrypt D key IV d).length = d.length := by
  unfold cbcRawDecrypt
  have hall := chunks16_all16 hmod
  rw [flatten_all16_length (cbcDecBlocks_all16 hD16 _ _ hall IV_length),
    cbcDecBlocks_length]
  calc 16 * (chunks16 d).length
      = (chunks16 d).flatten.length := (flatten_all16_length hall).symm
    _ = d.length := by rw [chunks16_flatten_self]

/-- C8 counterexample: a plaintext of 819201 bytes does not round-trip: its
padded ciphertext (819216 bytes) exceeds the 819200-byte output window of
`decrypt`, so at most 819200 bytes come back. -/
theorem c8_oversized_plaintext_not_roundtripped :
    decrypt (fun _ bl => bl) (List.replicate 16 0) IV
        (cbcEncrypt (fun _ bl => bl) (List.replicate 16 0) IV (List.replicate 819201 0))
      ≠ .ok (List.replicate 819201 0) := by
  intro h
  have hE : ∀ b : List Nat, b.length = 16
      → ((fun (_ bl : List Nat) => bl) (List.replicate 16 0) b).length = 16 := fun _ hh => hh
  have hdl := @cbcEncrypt_length (fun _ bl => bl) (List.replicate 16 0) hE
    (List.replicate 819201 0)
  have hpl : (pkcsPad (List.replicate 819201 0)).length = 819216 := by
    rw [pkcsPad_length, List.length_replicate]
  have hc1 : ¬((cbcEncrypt (fun _ bl => bl) (List.replicate 16 0) IV
      (List.replicate 819201 0)).length % 16 ≠ 0
      ∨ (cbcEncrypt (fun _ bl => bl) (List.replicate 16 0) IV
          (List.replicate 819201 0)).length = 0) := by
    rw [hdl, hpl]
    omega
  have hc2 : ¬((cbcEncrypt (fun _ bl => bl) (List.replicate 16 0) IV
      (List.replicate 819201 0)).length ≤ 819200) := by
    rw [hdl, hpl]
    omega
  unfold decrypt at h
  rw [if_neg hc1, if_neg hc2] at h
  injection h with h'
  have hle : ((cbcRawDecrypt (fun _ bl => bl) (List.replicate 16 0) IV
      (cbcEncrypt (fun _ bl => bl) (List.replicate 16 0) IV
        (List.replicate 819201 0))).take 819200).length ≤ 819200 := by
    rw [List.length_take]
    exact Nat.min_le_left _ _
  rw [h', List.length_replicate] at hle
  omega

/-- C8 (amended): for every 128-bit-key block cipher pair in which decryption
inverts encryption, and every plaintext of at most 819200 bytes (so that it
fits `decrypt`'s output window), CBC-encrypting with PKCS padding under the
fixed all-zero 16-byte `IV` and then running the pipeline's `decrypt` step
with the same key and `IV` reproduces the plaintext exactly; the `IV` used
for every segment is the all-zero vector. -/
theorem c8_cbc_roundtrip_bounded (E D : List Nat → List Nat → List Nat)
    (key p : List Nat)
    (hE : ∀ b, b.length = 16 → (E key b).length = 16)
    (hD : ∀ b, b.length = 16 → D key (E key b) = b)
    (hp : p.length ≤ 819200) :
    decrypt D key IV (cbcEncrypt E key IV p) = .ok p ∧ IV = List.replicate 16 0 :=
  ⟨decrypt_cbcEncrypt hE hD p hp, rfl⟩

/-- C8 witness: the identity block cipher and the plaintext `[1, 2, 3]`. -/
theorem c8_cbc_roundtrip_bounded_witness :
    ((∀ b : List Nat, b.length = 16 → ((fun (_ bl : List Nat) => bl) [] b).length = 16)
      ∧ (∀ b : List Nat, b.length = 16
          → (fun (_ bl : List Nat) => bl) [] ((fun (_ bl : List Nat) => bl) [] b) = b)
      ∧ ([1, 2, 3] : List Nat).length ≤ 819200)
    ∧ (decrypt (fun _ bl => bl) [] IV (cbcEncrypt (fun _ bl => bl) [] IV [1, 2, 3])
        = .ok [1, 2, 3]
      ∧ IV = List.replicate 16 0) :=
  ⟨⟨fun _ hh => hh, fun _ _ => rfl, by decide⟩,
    c8_cbc_roundtrip_bounded _ _ [] [1, 2, 3] (fun _ hh => hh) (fun _ _ => rfl) (by decide)⟩

/-- C10: whenever `decrypt` succeeds, it returns at most 819200 bytes (the
single fixed-buffer pass), and when the unpadded plaintext of the ciphertext
is longer than 819200 bytes the returned bytes are exactly the first 819200
bytes of that plaintext — an initial portion, not the whole. -/
theorem c10_decrypt_output_bounded (D : List Nat → List Nat → List Nat)
    (key d r : List Nat) (hD16 : ∀ c, (D key c).length = 16)
    (h : decrypt D key IV d = .ok r) :
    r.length ≤ 819200
    ∧ ∀ p, pkcsUnpad (cbcRawDecrypt D key IV d) = some p → 819200 < p.length →
        r = p.take 819200 ∧ r ≠ p := by
  unfold decrypt at h
  split at h
  · exact Except.noConfusion h
  · rename_i hg
    push_neg at hg
    have hmod : d.length % 16 = 0 := hg.1
    have hraw := cbcRawDecrypt_length hD16 hmod
    split at h
    · rename_i hle
      cases hu : pkcsUnpad (cbcRawDecrypt D key IV d) with
      | none =>
        simp only [hu] at h
        exact Except.noConfusion h
      | some p' =>
        simp only [hu] at h
        injection h with h'
        subst h'
        have hple : p'.length ≤ 819200 := by
          have := pkcsUnpad_length_le hu
          omega
        refine ⟨hple, fun p hp hgt => ?_⟩
        injection hp with hp'
        subst hp'
        exact absurd hgt (by omega)
    · rename_i hgt'
      injection h with h'
      subst h'
      constructor
      · rw [List.length_take]
        exact Nat.min_le_left _ _
      · intro p hp hgtp
        obtain ⟨k, hk1, hk2, hpeq⟩ := pkcsUnpad_some hp
        have hplen : p.length = (cbcRawDecrypt D key IV d).length - k := by
          rw [hpeq, List.length_take]
          omega
        constructor
        · rw [hpeq, List.take_take, Nat.min_eq_left (by omega)]
        · intro hrp
          have h1 : ((cbcRawDecrypt D key IV d).take 819200).length = 819200 := by
            rw [List.length_take, hraw]
            exact Nat.min_eq_left (by omega)
          rw [hrp] at h1
          omega

/-- C10 witness: a one-block ciphertext whose decryption is a full padding
block plus one data block worth of bytes. -/
theorem c10_decrypt_output_bounded_witness :
    ((∀ c : List Nat, ((fun (_ _ : List Nat) => List.replicate 16 1) [] c).length = 16)
      ∧ decrypt (fun _ _ => List.replicate 16 1) [] IV (List.replicate 16 5)
          = .ok (List.replicate 15 1))
    ∧ ((List.replicate 15 1 : List Nat).length ≤ 819200
      ∧ ∀ p, pkcsUnpad (cbcRawDecrypt (fun _ _ => List.replicate 16 1) [] IV
            (List.replicate 16 5)) = some p → 819200 < p.length →
          (List.replicate 15 1 : List Nat) = p.take 819200
            ∧ (List.replicate 15 1 : List Nat) ≠ p) :=
  ⟨⟨fun _ => rfl, rfl⟩,
    c10_decrypt_output_bounded _ _ _ _ (fun _ => rfl) rfl⟩

/-! ### Helper lemmas: the download loops -/

theorem runPlain_prefix_fail (fetch : Str → Option (List Nat)) (domain u : Str)
    (bs : Str → List Nat) :
    ∀ (pre post : List Str),
      (∀ v ∈ pre, fetch (segUrl domain v) = some (bs v)) →
      fetch (segUrl domain u) = none →
      runPlain fetch domain (pre ++ u :: post)
        = { written := (pre.map bs).flatten,
            fetched := pre.map (segUrl domain) ++ [segUrl domain u],
            outcome := some .networkError } := by
  intro pre
  induction pre with
  | nil =>
    intro post _ hu
    show runPlain fetch domain (u :: post) = _
    unfold runPlain
    simp only [hu]
    rfl
  | cons v vs ih =>
    intro post hpre hu
    show runPlain fetch domain (v :: (vs ++ u :: post)) = _
    unfold runPlain
    simp only [hpre v (by simp)]
    rw [ih post (fun x hx => hpre x (by simp [hx])) hu]
    simp

theorem runDecrypt_prefix_fail (D : List Nat → List Nat → List Nat) (key : List Nat)
    (fetch : Str → Option (List Nat)) (domain u : Str) (bs ps : Str → List Nat) :
    ∀ (pre post : List Str),
      (∀ v ∈ pre, fetch (segUrl domain v) = some (bs v)) →
      (∀ v ∈ pre, decrypt D key IV (bs v) = .ok (ps v)) →
      fetch (segUrl domain u) = none →
      runDecrypt D key fetch domain (pre ++ u :: post)
        = { written := (pre.map ps).flatten,
            fetched := pre.map (segUrl domain) ++ [segUrl domain u],
            outcome := some .networkError } := by
  intro pre
  induction pre with
  | nil =>
    intro post _ _ hu
    show runDecrypt D key fetch domain (u :: post) = _
    unfold runDecrypt
    simp only [hu]
    rfl
  | cons v vs ih =>
    intro post hpre hdec hu
    show runDecrypt D key fetch domain (v :: (vs ++ u :: post)) = _
    unfold runDecrypt
    simp only [hpre v (by simp), hdec v (by simp)]
    rw [ih post (fun x hx => hpre x (by simp [hx])) (fun x hx => hdec x (by simp [hx])) hu]
    simp

/-- C3: if fetching segment `u` fails while every earlier segment succeeded,
both download loops abort on the spot with the network failure: the fetch log
is exactly the earlier segments plus `u` (nothing after `u` is requested) and
the bytes written are exactly the concatenation of the earlier segments'
processed contents (fetched bytes as-is for the plain loop, decrypted bytes
for the decrypting loop). -/
theorem c3_segment_fetch_failure_aborts_run
    (D : List Nat → List Nat → List Nat) (key : List Nat)
    (fetch : Str → Option (List Nat)) (domain u : Str) (pre post : List Str)
    (bs ps : Str → List Nat)
    (hpre : ∀ v ∈ pre, fetch (segUrl domain v) = some (bs v))
    (hu : fetch (segUrl domain u) = none) :
    runPlain fetch domain (pre ++ u :: post)
      = { written := (pre.map bs).flatten,
          fetched := pre.map (segUrl domain) ++ [segUrl domain u],
          outcome := some .networkError }
    ∧ ((∀ v ∈ pre, decrypt D key IV (bs v) = .ok (ps v)) →
        runDecrypt D key fetch domain (pre ++ u :: post)
          = { written := (pre.map ps).flatten,
              fetched := pre.map (segUrl domain) ++ [segUrl domain u],
              outcome := some .networkError }) :=
  ⟨runPlain_prefix_fail fetch domain u bs pre post hpre hu,
    fun hdec => runDecrypt_prefix_fail D key fetch domain u bs ps pre post hpre hdec hu⟩

/-- C3 witness: one successful segment, then a failing fetch, then one more
segment that is never requested. -/
theorem c3_segment_fetch_failure_aborts_run_witness :
    ((∀ v ∈ ["a".data],
        (fun s => if s = segUrl "d".data "a".data
            then some (List.replicate 16 1) else none) (segUrl "d".data v)
          = some ((fun (_ : Str) => List.replicate 16 1) v))
      ∧ (fun s => if s = segUrl "d".data "a".data
            then some (List.replicate 16 1) else none) (segUrl "d".data "b".data) = none)
    ∧ (runPlain (fun s => if s = segUrl "d".data "a".data
            then some (List.replicate 16 1) else none) "d".data
          (["a".data] ++ "b".data :: ["c".data])
        = { written := ((["a".data]).map (fun (_ : Str) => List.replicate 16 1)).flatten,
            fetched := (["a".data]).map (segUrl "d".data) ++ [segUrl "d".data "b".data],
            outcome := some .networkError }
      ∧ ((∀ v ∈ ["a".data],
            decrypt (fun _ _ => List.replicate 16 1) [] IV
                ((fun (_ : Str) => List.replicate 16 1) v)
              = .ok ((fun (_ : Str) => List.replicate 15 1) v)) →
          runDecrypt (fun _ _ => List.replicate 16 1) []
              (fun s => if s = segUrl "d".data "a".data
                then some (List.replicate 16 1) else none) "d".data
              (["a".data] ++ "b".data :: ["c".data])
            = { written := ((["a".data]).map (fun (_ : Str) => List.replicate 15 1)).flatten,
                fetched := (["a".data]).map (segUrl "d".data) ++ [segUrl "d".data "b".data],
                outcome := some .networkError })) :=
  ⟨⟨by decide, by decide⟩,
    c3_segment_fetch_failure_aborts_run (fun _ _ => List.replicate 16 1) []
      (fun s => if s = segUrl "d".data "a".data then some (List.replicate 16 1) else none)
      "d".data "b".data ["a".data] ["c".data]
      (fun _ => List.replicate 16 1) (fun _ => List.replicate 15 1)
      (by decide) (by decide)⟩

end M3u8
